import Mathlib

/-!
Shallow embedding of the USCF MSA scraper (src/uscf-scraper.py) and proofs
about its specification claims.

Conventions of the embedding:
* Python strings become `String` / `List Char`; the regular expressions of the
  source are implemented as explicit character scanners that reproduce the
  behaviour of the Python `re` engine on the inputs the program feeds them
  (ASCII fragment of the Unicode classes; the dot-does-not-match-newline rule
  is modelled where a `.` occurs in a source pattern).
* HTML as seen through BeautifulSoup becomes the tree type `Node`;
  `find_all(..., recursive=True)` becomes a preorder descendant list.
* Network traffic and exceptions are modelled explicitly: a fetch either
  yields a parsed document or raises, and runs thread a visited set and a
  fetch log.
-/

set_option maxRecDepth 4000

namespace Uscf

/-! ## Python string primitives -/

/-- Whitespace as matched by the `\s` class and by `str.strip()` of the
source: ASCII whitespace plus the no-break space handled at line 179. -/
def isPyWS (c : Char) : Bool :=
  c = ' ' || c = '\t' || c = '\n' || c = '\r' ||
  c = Char.ofNat 11 || c = Char.ofNat 12 || c = Char.ofNat 160

/-- Python `str.strip()`. -/
def pyStripList (cs : List Char) : List Char :=
  ((cs.dropWhile isPyWS).reverse.dropWhile isPyWS).reverse

/-- Python `str.strip()` on `String`. -/
def pyStrip (s : String) : String := ⟨pyStripList s.data⟩

/-- Python `re.sub(r"\s+", " ", s)`: every whitespace run becomes one space.
The flag records whether the previous character was whitespace. -/
def collapseAux : List Char → Bool → List Char
  | [], _ => []
  | c :: cs, prev =>
    if isPyWS c then
      if prev then collapseAux cs true else ' ' :: collapseAux cs true
    else c :: collapseAux cs false

/-- Descending scan `i = n-1, n-2, ..., 0`, returning the first hit: the way
a greedy `(.+)` / `(.*)` prefix makes the Python engine try the longest
prefix first and backtrack downwards. -/
def lastHit (f : Nat → Option Nat) : Nat → Option Nat
  | 0 => none
  | i + 1 => match f i with | some r => some r | none => lastHit f i

/-- Ascending scan over all suffixes, first hit: `re.search` semantics. -/
def searchSome {α : Type} (f : List Char → Option α) : List Char → Option α
  | [] => f []
  | c :: cs => match f (c :: cs) with | some r => some r | none => searchSome f cs

/-- Ascending scan over all suffixes for a Boolean matcher. -/
def searchB (p : List Char → Bool) : List Char → Bool
  | [] => p []
  | c :: cs => p (c :: cs) || searchB p cs

/-! ## `extract_embedded_id` (lines 191-196, the inlined
`re.match(r"^(.*)\((\d+)\)", opp_name)`) -/

/-- Does `\((\d+)\)` match at offset `i`, with the anchored `(.*)` able to
reach `i` (a dot does not match a newline)? -/
def validGroupAt (cs : List Char) (i : Nat) : Bool :=
  (cs.take i).all (fun c => c != '\n') &&
  match cs.drop i with
  | '(' :: rest =>
    let ds := rest.takeWhile Char.isDigit
    !ds.isEmpty && ((rest.drop ds.length).head? == some ')')
  | _ => false

/-- The digit group captured at offset `i`. -/
def groupDigits (cs : List Char) (i : Nat) : List Char :=
  match cs.drop i with
  | '(' :: rest => rest.takeWhile Char.isDigit
  | _ => []

/-- Offset chosen by the greedy `(.*)`: the largest offset where the
parenthesised digit group matches. -/
def lastGroup (cs : List Char) : Option Nat :=
  lastHit (fun i => if validGroupAt cs i then some i else none) cs.length

/-- Lines 191-196: split an embedded numeric id out of a name text.
On a match, group 1 (everything before the chosen `(`) is stripped and the
digits are returned; otherwise the text is returned unchanged with id "". -/
def extract_embedded_id (s : String) : String × String :=
  match lastGroup s.data with
  | some i => (⟨pyStripList (s.data.take i)⟩, ⟨groupDigits s.data i⟩)
  | none => (s, "")

/-! ## `fix_location` (lines 64-72) -/

/-- Class `\w` of the source patterns (ASCII fragment). -/
def wordChar (c : Char) : Bool := c.isAlpha || c.isDigit || c = '_'

/-- The collapse-and-strip at line 68. -/
def normLoc (raw : String) : List Char :=
  pyStripList (collapseAux raw.data false)

/-- Does `^(.+,\s*\w\w)\b` succeed with `.+` consuming `i` characters (so the
comma sits at index `i`)? On success returns the length of group 1. -/
def locMatchAt (cs : List Char) (i : Nat) : Option Nat :=
  if i = 0 then none
  else
    match cs.drop i with
    | ',' :: rest =>
      let ws := rest.takeWhile isPyWS
      match rest.dropWhile isPyWS with
      | a :: b :: t =>
        if wordChar a && wordChar b &&
           (match t with | [] => true | x :: _ => !wordChar x) then
          some (i + 1 + ws.length + 2)
        else none
      | _ => none
    | _ => none

/-- Lines 64-72: collapse whitespace, then truncate after a
`"<text>, <2-word-char code>"` prefix if the pattern matches. -/
def fix_location (raw : String) : String :=
  let s := normLoc raw
  match lastHit (locMatchAt s) s.length with
  | some len => ⟨s.take len⟩
  | none => ⟨s⟩

/-! ## The HTML tree as seen through BeautifulSoup -/

/-- A parsed HTML node: a text node, or an element with its tag name, its
attribute list (in source order, as serialized back by BeautifulSoup) and its
children. Tag and attribute names are stored lower-cased, as html.parser
produces them. -/
inductive Node where
  | text (s : String)
  | elem (tag : String) (attrs : List (String × String)) (children : List Node)
deriving Repr

mutual

/-- All descendants of a node in document (preorder) order: what
`find_all(..., recursive=True)` iterates over. -/
def descendants : Node → List Node
  | .text _ => []
  | .elem _ _ cs => descList cs

/-- Descendants of a forest, preorder. -/
def descList : List Node → List Node
  | [] => []
  | c :: cs => c :: descendants c ++ descList cs

end

mutual

/-- The text fragments (NavigableStrings) below a node, in document order. -/
def textFrags : Node → List (List Char)
  | .text s => [s.data]
  | .elem _ _ cs => textFragsList cs

/-- Text fragments of a forest. -/
def textFragsList : List Node → List (List Char)
  | [] => []
  | c :: cs => textFrags c ++ textFragsList cs

end

/-- Line 178, `re.sub(r"<[^>]*>", "", str(node))`: all markup dropped, text
fragments concatenated. -/
def innerTextChars (n : Node) : List Char := (textFrags n).flatten

/-- BeautifulSoup `get_text(strip=True)`: each fragment stripped, empties dropped,
joined with "". -/
def get_text_strip (n : Node) : String :=
  ⟨(((textFrags n).map pyStripList).filter (fun f => !f.isEmpty)).flatten⟩

/-- BeautifulSoup `get_text(" ", strip=True)`: each fragment stripped, empties dropped,
joined with a single space. -/
def get_text_sep_strip (n : Node) : String :=
  ⟨List.intercalate [' '] (((textFrags n).map pyStripList).filter (fun f => !f.isEmpty))⟩

/-- Tag-name test. -/
def isTag (t : String) (n : Node) : Bool :=
  match n with
  | .elem tag _ _ => tag = t
  | .text _ => false

/-- Attribute lookup, first occurrence (html.parser keeps the first). -/
def attrOf (n : Node) (k : String) : Option String :=
  match n with
  | .elem _ attrs _ => (attrs.find? (fun kv => kv.1 = k)).map (fun kv => kv.2)
  | .text _ => none

/-- Direct children of a node. -/
def childrenOf : Node → List Node
  | .text _ => []
  | .elem _ _ cs => cs

/-- BeautifulSoup `find_all(pred, recursive=True)`. -/
def findAll (p : Node → Bool) (n : Node) : List Node := (descendants n).filter p

/-- BeautifulSoup `.string`: the single text fragment below a chain of
single-child tags, if any. -/
def nodeString : Node → Option String
  | .text s => some s
  | .elem _ _ [c] => nodeString c
  | .elem _ _ _ => none

/-! ## The filler-cell signature (lines 163-173 and 229-239) -/

/-- Case-insensitive literal match at the head, returning the rest. -/
def matchLitCI : List Char → List Char → Option (List Char)
  | [], cs => some cs
  | _ :: _, [] => none
  | p :: ps, c :: cs => if c.toLower = p then matchLitCI ps cs else none

/-- Case-sensitive literal match at the head, returning the rest. -/
def matchLitCS : List Char → List Char → Option (List Char)
  | [], cs => some cs
  | _ :: _, [] => none
  | p :: ps, c :: cs => if c = p then matchLitCS ps cs else none

/-- Value `v` optionally preceded by a quote: the `["\']?<v>` tail of the filler
patterns (the final optional quote of the pattern never affects success). -/
def quoteThen (v : List Char) (cs : List Char) : Bool :=
  v.isPrefixOf cs ||
  (match cs with
   | q :: rest => (q = '"' || q = Char.ofNat 39) && v.isPrefixOf rest
   | [] => false)

/-- Matcher for `<name>\s*=\s*["\']?<v>` at the head of a string
(IGNORECASE, as in the source). -/
def attrPat (name : List Char) (v : List Char) (cs : List Char) : Bool :=
  match matchLitCI name cs with
  | none => false
  | some r1 =>
    match r1.dropWhile isPyWS with
    | '=' :: r2 => quoteThen v (r2.dropWhile isPyWS)
    | _ => false

/-- The opening tag of a `<td>` as BeautifulSoup serializes it:
`<td key="value" ...>`. The `re.search(r"<td[^>]*>", str(td_))` of the
source always finds exactly this prefix of the serialization. -/
def openTagChars (attrs : List (String × String)) : List Char :=
  ("<td").data ++
  attrs.flatMap (fun kv => ' ' :: (kv.1.data ++ '=' :: '"' :: kv.2.data ++ ['"'])) ++
  ['>']

/-- Lines 166-172 / 232-238: a cell is filler when its opening tag matches
both `width\s*=\s*["\']?1["\']?` and `rowspan\s*=\s*["\']?20["\']?`. -/
def isFillerTd (n : Node) : Bool :=
  match n with
  | .elem _ attrs _ =>
    let tag := openTagChars attrs
    searchB (attrPat (("width").data) (("1").data)) tag &&
    searchB (attrPat (("rowspan").data) (("20").data)) tag
  | .text _ => false

/-! ## `parse_games_in_table` (lines 155-208) -/

/-- Line 178-182: strip markup, normalize no-break spaces, collapse
whitespace, strip. -/
def cellText (n : Node) : String :=
  ⟨pyStripList (collapseAux
    ((innerTextChars n).map (fun c => if c = Char.ofNat 160 then ' ' else c)) false)⟩

/-- The letter class of `^[WLDH]\s*\d*$` with IGNORECASE. -/
def wldhChar (c : Char) : Bool :=
  c = 'W' || c = 'L' || c = 'D' || c = 'H' ||
  c = 'w' || c = 'l' || c = 'd' || c = 'h'

/-- Pattern `re.match(r"^[WLDH]\s*\d*$", s, re.IGNORECASE)` on the already collapsed
and stripped column text (which therefore contains no newline). -/
def matchResultCode (s : String) : Bool :=
  match s.data with
  | c :: rest => wldhChar c && (rest.dropWhile isPyWS).all Char.isDigit
  | [] => false

/-- Python `s.split()[0]` (line 198) for a string that has a token. -/
def firstToken (s : String) : String :=
  ⟨(s.data.dropWhile isPyWS).takeWhile (fun c => !isPyWS c)⟩

/-- Lines 188-189, `re.sub(r"^R:\s*", "", s, flags=re.IGNORECASE)`. -/
def stripRatingHead (s : String) : String :=
  match s.data with
  | c1 :: ':' :: rest =>
    if c1 = 'R' || c1 = 'r' then ⟨rest.dropWhile isPyWS⟩ else s
  | _ => s

/-- One extracted game record (lines 197-205). -/
structure Game where
  result : String
  color : String
  opp_score : String
  opp_pre : String
  opp_post : String
  opp_name : String
  opp_id : String
deriving DecidableEq, Repr

/-- The per-row body of the loop at lines 159-207: direct `<td>` children,
filler suppression, text normalization, the 6-column / result-code shape
gate, then field extraction. Returns the game record the row contributes,
if any. -/
def rowToGame (tr : Node) : Option Game :=
  let tds := (childrenOf tr).filter (isTag ("td"))
  if tds.isEmpty then none
  else
    let new_cells := tds.filter (fun td => !isFillerTd td)
    let text_cols := new_cells.map cellText
    -- `len(text_cols)==6` plus positional indexing, as a 6-element pattern
    match text_cols with
    | [c0, c1, c2, c3, c4, c5] =>
      if matchResultCode c0 then
        let nmid := extract_embedded_id c5
        some {
          result := firstToken c0,
          color := c1,
          opp_score := c2,
          opp_pre := stripRatingHead c3,
          opp_post := stripRatingHead c4,
          opp_name := nmid.1,
          opp_id := nmid.2 }
      else none
    | _ => none

/-- Lines 155-208: run the row loop over every `<tr>` below the table. -/
def parse_games_in_table (t : Node) : List Game :=
  (findAll (isTag ("tr")) t).filterMap rowToGame

/-- Lines 279-293 of `parse_player_specific_page`: pass 1 over the outer
Games table; when it yields nothing, pass 2 concatenates the extraction over
every nested table. -/
def twoPassGames (gt : Node) : List Game :=
  let pass1 := parse_games_in_table gt
  if pass1.isEmpty then
    (findAll (isTag ("table")) gt).flatMap parse_games_in_table
  else pass1

/-! ## `parse_player_rating_table` (lines 210-252) -/

/-- Python `str.lower()` (ASCII fragment). -/
def lowerStr (s : String) : String := ⟨s.data.map Char.toLower⟩

/-- Line 220: the main-table signature used by the rating scan —
`{"bgcolor": "FFFFFF", "width": "750"}` (only the 750 variant). -/
def sigTable750 (n : Node) : Bool :=
  isTag ("table") n &&
  attrOf n ("bgcolor") == some ("FFFFFF") &&
  attrOf n ("width") == some ("750")

/-- Width-800 variant of the signature (used at line 139 by
`parse_summary_table`, but not by the rating scan). -/
def sigTable800 (n : Node) : Bool :=
  isTag ("table") n &&
  attrOf n ("bgcolor") == some ("FFFFFF") &&
  attrOf n ("width") == some ("800")

/-- Pattern `re.search(r"R:\s*(\d+)\s*(?:->|=>)\s*(\d+)", s, re.IGNORECASE)` head
matcher: does the pattern match at this exact offset? Returns both captured
digit groups. -/
def ratingMatchAt (cs : List Char) : Option (List Char × List Char) :=
  match cs with
  | c1 :: ':' :: rest =>
    if c1 = 'R' || c1 = 'r' then
      let r1 := rest.dropWhile isPyWS
      let d1 := r1.takeWhile Char.isDigit
      if d1.isEmpty then none
      else
        match (r1.drop d1.length).dropWhile isPyWS with
        | a :: '>' :: r3 =>
          if a = '-' || a = '=' then
            let d2 := (r3.dropWhile isPyWS).takeWhile Char.isDigit
            if d2.isEmpty then none else some (d1, d2)
          else none
        | _ => none
    else none
  | _ => none

/-- The body of the row loop at lines 225-251: direct `<td>` children,
filler suppression, then if at least two cells remain and the first reads
"rating" (case-folded), match the second against the rating pattern.
A hit is returned; anything else lets the scan continue. -/
def rowRating (r : Node) : Option (String × String) :=
  let tds := (childrenOf r).filter (isTag ("td"))
  if tds.isEmpty then none
  else
    let cleaned := tds.filter (fun td => !isFillerTd td)
    match cleaned with
    | t0 :: t1 :: _ =>
      if lowerStr (get_text_strip t0) = ("rating") then
        match searchSome ratingMatchAt (pyStrip (get_text_sep_strip t1)).data with
        | some (d1, d2) => some (⟨d1⟩, ⟨d2⟩)
        | none => none
      else none
    | _ => none

/-- Lines 210-252: scan the width-750 signature tables, direct-child rows in
order, and return the first rating hit, else two empty strings. -/
def parse_player_rating_table (soup : Node) : String × String :=
  ((findAll sigTable750 soup).findSome? (fun t =>
    ((childrenOf t).filter (isTag ("tr"))).findSome? rowRating)).getD ("", "")

/-! ## `parse_summary_table` (lines 129-153) -/

/-- Python dict assignment `d[k] = v`: overwrite in place or append. -/
def dictInsert (d : List (String × String)) (k v : String) : List (String × String) :=
  if d.any (fun kv => kv.1 == k) then
    d.map (fun kv => if kv.1 == k then (k, v) else kv)
  else d ++ [(k, v)]

/-- Python `d.get(k, "")` for the association lists built by `dictInsert`. -/
def dictGet (d : List (String × String)) (k : String) : String :=
  ((d.find? (fun kv => kv.1 == k)).map (fun kv => kv.2)).getD ""

/-- Lines 129-153: find the big metadata table (750 then 800 width variant),
then fold every at-least-two-cell row into a label/value mapping; the
location value is passed through `fix_location`. -/
def parse_summary_table (soup : Node) : List (String × String) :=
  let big :=
    match (findAll sigTable750 soup).head? with
    | some t => some t
    | none => (findAll sigTable800 soup).head?
  match big with
  | none => []
  | some b =>
    (findAll (isTag ("tr")) b).foldl (fun d r =>
      match findAll (isTag ("td")) r with
      | t0 :: t1 :: _ =>
        let lbl := lowerStr (get_text_strip t0)
        let val := get_text_sep_strip t1
        let val := if lbl = ("location") then fix_location val else val
        dictInsert d lbl val
      | _ => d) []

/-! ## `parse_player_specific_page` (lines 254-299) -/

/-- Case-insensitive substring test: `re.compile(pat, re.IGNORECASE).search`. -/
def containsCI (s : String) (pat : String) : Bool :=
  searchB (fun cs => (pat.data.map Char.toLower).isPrefixOf (cs.map Char.toLower)) s.data

/-- Case-sensitive substring test: Python `in`. -/
def containsSub (s : String) (pat : String) : Bool :=
  searchB (fun cs => pat.data.isPrefixOf cs) s.data

/-- Lines 271-274: a table holding a `<b>` whose string says "Games". -/
def hasGamesB (t : Node) : Bool :=
  (descendants t).any (fun n =>
    isTag ("b") n &&
    (match nodeString n with
     | some s => containsCI s ("Games")
     | none => false))

/-- Result of `parse_player_specific_page`. -/
structure PlayerPage where
  pre : String
  post : String
  games : List Game
deriving DecidableEq, Repr

/-- Lines 254-299: player rating, then the two-pass games extraction from
the first table containing a bold "Games" marker. -/
def parse_player_specific_page (soup : Node) : PlayerPage :=
  let rp := parse_player_rating_table soup
  match (findAll (isTag ("table")) soup).find? hasGamesB with
  | none => ⟨rp.1, rp.2, []⟩
  | some gt => ⟨rp.1, rp.2, twoPassGames gt⟩

/-! ## `find_all_sections_link` (lines 118-127) -/

/-- Pattern `re.search(r"XtblMain\.php\?(\d+)-(\d+)", xlink)` head matcher. -/
def xtblMainAt (cs : List Char) : Option (List Char × List Char) :=
  match matchLitCS (("XtblMain.php?").data) cs with
  | none => none
  | some r1 =>
    let d1 := r1.takeWhile Char.isDigit
    if d1.isEmpty then none
    else
      match r1.drop d1.length with
      | '-' :: r2 =>
        let d2 := r2.takeWhile Char.isDigit
        if d2.isEmpty then none else some (d1, d2)
      | _ => none

/-- Lines 118-127: derive the `.0` all-sections variant of a crosstable
link; both branches of the source return the same string `zero`, because
`soup.find("a", href=zero)` only matches an anchor whose href equals it. -/
def find_all_sections_link (soup : Node) (xlink : String) : String :=
  match searchSome xtblMainAt xlink.data with
  | none => ""
  | some (eid, pid) =>
    let zero : String := ("XtblMain.php?") ++ ⟨eid⟩ ++ (".0-") ++ ⟨pid⟩
    match (findAll (isTag ("a")) soup).find? (fun a => attrOf a ("href") == some zero) with
    | some a => (attrOf a ("href")).getD zero
    | none => zero

/-! ## `parse_crosstable` (lines 301-348) and the traversal of `main` -/

/-- Lines 316-319 / 334-338: first anchor whose href mentions both
`XtblPlr.php?` and the player id. -/
def findUserlink (soup : Node) (pid : String) : Option String :=
  (((findAll (isTag ("a")) soup).filterMap (fun a => attrOf a ("href"))).find?
    (fun h => containsSub h ("XtblPlr.php?") && containsSub h pid))

/-- What kind of page a fetch inside `parse_crosstable` retrieves. -/
inductive FKind where
  | xref
  | allSec
  | player
deriving DecidableEq, Repr

/-- One entry of the fetch log. -/
structure FetchEv where
  kind : FKind
  link : String
deriving DecidableEq, Repr

/-- The network, abstracted at the granularity `parse_crosstable` uses it:
fetching a relative link (the constant BASE_URL prefix elided) either yields
a parsed document or raises (`none`), in which case `fetch_html` has already
exhausted its retries. -/
structure Env where
  fetch : String → Option Node

/-- The result dict of `parse_crosstable`. -/
structure CrossData where
  summary : List (String × String)
  player_games : List Game
  player_rating_pre : String
  player_rating_post : String
deriving DecidableEq, Repr

/-- Line 303: the initial result dict. -/
def emptyCross : CrossData := ⟨[], [], "", ""⟩

/-- Lines 340-348: fetch the player-specific page once a user link is known,
else report zero games. Shared tail of `parse_crosstable`. -/
def finishPlayer (env : Env) (v : List String) (log : List FetchEv)
    (summary : List (String × String)) (ul : Option String) :
    List String × List FetchEv × Except Unit CrossData :=
  match ul with
  | none => (v, log, .ok { summary := summary, player_games := [],
                           player_rating_pre := "", player_rating_post := "" })
  | some u =>
    match env.fetch u with
    | none => (v, log ++ [⟨.player, u⟩], .error ())
    | some psoup =>
      let parsed := parse_player_specific_page psoup
      (v, log ++ [⟨.player, u⟩],
       .ok { summary := summary, player_games := parsed.games,
             player_rating_pre := parsed.pre, player_rating_post := parsed.post })

/-- Lines 301-348: the visited-set guard, the crosstable fetch, the `.0`
all-sections fallback, and the player-page fetch. Returns the visited set
as mutated so far, the fetch log, and either the result dict or the
propagated exception. -/
def parse_crosstable (env : Env) (pid : String) (xlink : String)
    (visited : List String) :
    List String × List FetchEv × Except Unit CrossData :=
  if xlink ∈ visited then (visited, [], .ok emptyCross)
  else
    let v1 := xlink :: visited
    match env.fetch xlink with
    | none => (v1, [⟨.xref, xlink⟩], .error ())
    | some soup =>
      let summary0 := parse_summary_table soup
      match findUserlink soup pid with
      | some u => finishPlayer env v1 [⟨.xref, xlink⟩] summary0 (some u)
      | none =>
        let zero := find_all_sections_link soup xlink
        if zero ≠ "" ∧ zero ∉ v1 then
          let v2 := zero :: v1
          match env.fetch zero with
          | none => (v2, [⟨.xref, xlink⟩, ⟨.allSec, zero⟩], .error ())
          | some soup2 =>
            let summary1 := (parse_summary_table soup2).foldl
              (fun d kv => dictInsert d kv.1 kv.2) summary0
            finishPlayer env v2 [⟨.xref, xlink⟩, ⟨.allSec, zero⟩] summary1
              (findUserlink soup2 pid)
        else finishPlayer env v1 [⟨.xref, xlink⟩] summary0 none

/-- The per-event loop of `main` (lines 360-399), restricted to its fetch
behaviour: events are their `xlink` fields, an empty link skips the
crosstable call (line 397), and an exception propagating out of
`parse_crosstable` aborts the whole run (`main` installs no handler). -/
def runEvents (env : Env) (pid : String) :
    List String → List String → List FetchEv → List String × List FetchEv × Bool
  | [], v, log => (v, log, false)
  | x :: xs, v, log =>
    if x = "" then runEvents env pid xs v log
    else
      match parse_crosstable env pid x v with
      | (v', l', .error _) => (v', log ++ l', true)
      | (v', l', .ok _) => runEvents env pid xs v' (log ++ l')

/-- A whole traversal starting from the empty visited set (line 360). -/
def mainFetches (env : Env) (pid : String) (xlinks : List String) :
    List String × List FetchEv × Bool :=
  runEvents env pid xlinks [] []

/-- The cross-reference fetches (direct crosstable links and their `.0`
all-sections variants) of a fetch log. -/
def crossLinks (log : List FetchEv) : List String :=
  log.filterMap (fun f => match f.kind with | .player => none | _ => some f.link)

/-! ## `fetch_html` (lines 42-58) -/

/-- The two classes of exception the retry loop of `fetch_html` catches. -/
inductive NetErr where
  | timeout
  | reqError
deriving DecidableEq, Repr

/-- Observable actions of `fetch_html`: the fixed inter-attempt delay and
the HTTP attempts. -/
inductive FetchAct where
  | sleep
  | attempt (i : Nat)
deriving DecidableEq, Repr

/-- The retry loop of lines 43-57. `net i` is the outcome of the i-th HTTP
request; `rem` is the number of loop iterations left; the invariant
`i + rem = max_retries + 1` ties them. Each iteration sleeps first
(line 45); on the last attempt an exception is re-raised (lines 52-57);
the fall-through `return ""` at line 58 is only reachable when
`max_retries = 0`. -/
def fetchGo (net : Nat → Except NetErr String) (maxR : Nat) :
    Nat → Nat → List FetchAct × Except NetErr String
  | 0, _ => ([], .ok "")
  | rem + 1, i =>
    match net i with
    | .ok body => ([.sleep, .attempt i], .ok body)
    | .error e =>
      if i = maxR then ([.sleep, .attempt i], .error e)
      else
        let r := fetchGo net maxR rem (i + 1)
        (FetchAct.sleep :: FetchAct.attempt i :: r.1, r.2)

/-- Lines 42-58: `fetch_html` with its attempt counter starting at 1. -/
def fetch_html (net : Nat → Except NetErr String) (max_retries : Nat) :
    List FetchAct × Except NetErr String :=
  fetchGo net max_retries max_retries 1

/-- The action trace of `k` consecutive attempts starting at number `s`,
each preceded by the fixed delay. -/
def attemptTrace (s k : Nat) : List FetchAct :=
  (List.range' s k).flatMap (fun j => [FetchAct.sleep, FetchAct.attempt j])

/-! ## Row assembly in `main` (lines 366-380, 401-409) -/

/-- One tournament-list row (lines 104-115). -/
structure EventSummary where
  end_date : String
  event_id : String
  event_name : String
  reg_before : String
  reg_after : String
  quick_before : String
  quick_after : String
  blitz_before : String
  blitz_after : String
  xlink : String
deriving DecidableEq, Repr

/-- One output event row of `main` (lines 366-380). -/
structure EventRow where
  player_id : String
  end_date : String
  event_id : String
  event_name : String
  reg_before : String
  reg_after : String
  quick_before : String
  quick_after : String
  blitz_before : String
  blitz_after : String
  location : String
  event_dates : String
  chief_td : String
deriving DecidableEq, Repr

/-- Lines 366-380 and 401-403: the row before rating resolution. -/
def assembleRow (pid : String) (ev : EventSummary)
    (summary : List (String × String)) : EventRow :=
  { player_id := pid, end_date := ev.end_date, event_id := ev.event_id,
    event_name := ev.event_name, reg_before := ev.reg_before,
    reg_after := ev.reg_after, quick_before := ev.quick_before,
    quick_after := ev.quick_after, blitz_before := ev.blitz_before,
    blitz_after := ev.blitz_after,
    location := dictGet summary ("location"),
    event_dates := dictGet summary ("event date(s)"),
    chief_td := dictGet summary ("chief td") }

/-- Lines 406-409: the player-page ratings overwrite the regular pair only
when truthy (non-empty). -/
def resolveRatings (row : EventRow) (my_pre my_post : String) : EventRow :=
  let row1 := if my_pre = "" then row else { row with reg_before := my_pre }
  if my_post = "" then row1 else { row1 with reg_after := my_post }

/-! ## Claim-side comparison definitions

These follow the words of the specification (not the source) and exist only
to be compared against the embedded source functions. -/

/-- Modelled from the spec's words (claim C7): a trailing `"(<digits>)"`
suffix at the very end of the name text. -/
def hasTrailingIdSuffix (s : String) : Bool :=
  match s.data.reverse with
  | ')' :: rest =>
    let ds := rest.takeWhile Char.isDigit
    !ds.isEmpty && ((rest.drop ds.length).head? == some '(')
  | _ => false

/-- Modelled from the spec's words (claim C8): the truncation pattern with a
genuine 2-letter code, where the source uses `\w\w`. -/
def locLettersAt (cs : List Char) (i : Nat) : Option Nat :=
  if i = 0 then none
  else
    match cs.drop i with
    | ',' :: rest =>
      let ws := rest.takeWhile isPyWS
      match rest.dropWhile isPyWS with
      | a :: b :: t =>
        if a.isAlpha && b.isAlpha &&
           (match t with | [] => true | x :: _ => !wordChar x) then
          some (i + 1 + ws.length + 2)
        else none
      | _ => none
    | _ => none

/-- Modelled from the spec's words (claim C8): `fix_location` as the claim
describes it, truncating only after a 2-letter code. -/
def fixLocationLetters (raw : String) : String :=
  let s := normLoc raw
  match lastHit (locLettersAt s) s.length with
  | some len => ⟨s.take len⟩
  | none => ⟨s⟩

/-- Modelled from the spec's words (claim C6): the rating scan as the claim
describes it, accepting both width variants of the main-table signature. -/
def ratingScanTwoWidths (soup : Node) : String × String :=
  ((findAll (fun n => sigTable750 n || sigTable800 n) soup).findSome? (fun t =>
    ((childrenOf t).filter (isTag ("tr"))).findSome? rowRating)).getD ("", "")

/-- The candidate rows of the rating scan, flattened in scan order. -/
def ratingCandidateRows (soup : Node) : List Node :=
  (findAll sigTable750 soup).flatMap (fun t => (childrenOf t).filter (isTag ("tr")))

/-- Text columns of a row after filler suppression (the quantity the shape
gate of `parse_games_in_table` tests). -/
def suppressedCols (tr : Node) : List String :=
  (((childrenOf tr).filter (isTag ("td"))).filter (fun td => !isFillerTd td)).map cellText

/-! ## Concrete fixtures -/

/-- A simple `<td>text</td>`. -/
def tdOf (s : String) : Node := .elem ("td") [] [.text s]

/-- A row whose column 0 is the letter-digit token "W1" (no space). -/
def exRowW1 : Node :=
  .elem ("tr") [] ((["W1", "B", "1.0", "R: 1200", "R: 1215", "JOHN DOE (123456)"]).map tdOf)

/-- A row whose column 0 is lower-case "w 1". -/
def exRowLower : Node :=
  .elem ("tr") [] ((["w 1", "W", "0.5", "R: 1100", "R: 1105", "A BEE (7)"]).map tdOf)

/-- A games table holding the two rows above. -/
def exTableW1 : Node := .elem ("table") [] [exRowW1, exRowLower]

/-- The game record extracted from `exRowW1`. -/
def gW1 : Game :=
  { result := "W1", color := "B", opp_score := "1.0", opp_pre := "1200",
    opp_post := "1215", opp_name := "JOHN DOE", opp_id := "123456" }

/-- A row with 7 text columns (shape-gate failure). -/
def exRow7 : Node :=
  .elem ("tr") []
    ((["W 1", "B", "1.0", "R: 1200", "R: 1215", "JOHN DOE (123456)", "EXTRA"]).map tdOf)

/-- A nested empty table for the two-pass witness. -/
def stNested : Node := .elem ("table") [] [.elem ("tr") [] []]

/-- An outer Games table containing `stNested` and no matching row. -/
def gtNested : Node := .elem ("table") [] [.elem ("tr") [] [], stNested]

/-- A rating row as found on player-specific pages. -/
def ratingRowEx : Node := .elem ("tr") [] [tdOf ("Rating"), tdOf ("R: 1294 ->1451")]

/-- A player page whose rating row sits in a width-800 signature table. -/
def doc800 : Node :=
  .elem ("html") [] [.elem ("table") [("bgcolor", "FFFFFF"), ("width", "800")] [ratingRowEx]]

/-- The same page with the width-750 variant. -/
def doc750 : Node :=
  .elem ("html") [] [.elem ("table") [("bgcolor", "FFFFFF"), ("width", "750")] [ratingRowEx]]

/-- A network on which every fetch raises. -/
def envFail : Env := ⟨fun _ => none⟩

/-- A network where only the direct crosstable link resolves — to a page
without a user link — and every other fetch, in particular the derived
all-sections variant link, raises. -/
def envVariant : Env :=
  ⟨fun l => if l = ("XtblMain.php?11-22") then some (.elem ("html") [] []) else none⟩

/-- Attempt outcomes: a timeout on the first try, success afterwards. -/
def netRetryOnce : Nat → Except NetErr String :=
  fun j => if j = 1 then .error .timeout else .ok ("body")

/-! ## Helper lemmas -/

theorem lastHit_eq_some (f : Nat → Option Nat) (n i r : Nat)
    (hi : i < n) (hf : f i = some r)
    (hnone : ∀ j, j < n → i < j → f j = none) : lastHit f n = some r := by
  induction n with
  | zero => omega
  | succ n ih =>
    by_cases h : i = n
    · subst h; simp [lastHit, hf]
    · have hn : f n = none := hnone n (by omega) (by omega)
      simp only [lastHit, hn]
      exact ih (by omega) (fun j h1 h2 => hnone j (by omega) h2)

theorem lastHit_eq_none (f : Nat → Option Nat) (n : Nat)
    (hnone : ∀ j, j < n → f j = none) : lastHit f n = none := by
  induction n with
  | zero => rfl
  | succ n ih =>
    simp only [lastHit, hnone n (by omega)]
    exact ih (fun j h1 => hnone j (by omega))

/-! ## C7 — embedded-ID extraction -/

/-- C7 (corrected claim, counterexample): `"JOHN (123) JR"` has no trailing
`"(<digits>)"` suffix, yet the extraction does not return it unchanged with
an empty id: the unanchored regex finds the interior group and drops the
tail after it. -/
theorem c7_counterexample :
    extract_embedded_id ("JOHN (123) JR") = (("JOHN"), ("123")) ∧
    hasTrailingIdSuffix ("JOHN (123) JR") = false ∧
    extract_embedded_id ("JOHN (123) JR") ≠ (("JOHN (123) JR"), "") := by
  decide

/-- C7 (amended): the extraction keys on the last offset where `(<digits>)`
matches with the anchored dot-prefix able to reach it — not on a trailing
suffix. It returns the stripped text before that offset paired with the
digits (text after the group is dropped); only when no such offset exists at
all is the input returned unchanged with an empty id. -/
theorem c7_embedded_id :
    (∀ (s : String) (i : Nat), i < s.data.length →
      validGroupAt s.data i = true →
      (∀ j, j < s.data.length → i < j → validGroupAt s.data j = false) →
      extract_embedded_id s = (⟨pyStripList (s.data.take i)⟩, ⟨groupDigits s.data i⟩)) ∧
    (∀ s : String, (∀ j, j < s.data.length → validGroupAt s.data j = false) →
      extract_embedded_id s = (s, "")) := by
  constructor
  · intro s i hi hv hnone
    have h : lastGroup s.data = some i := by
      apply lastHit_eq_some _ _ i _ hi
      · simp [hv]
      · intro j h1 h2; simp [hnone j h1 h2]
    simp [extract_embedded_id, h]
  · intro s hnone
    have h : lastGroup s.data = none := by
      apply lastHit_eq_none
      intro j h1; simp [hnone j h1]
    simp [extract_embedded_id, h]

/-- C7 witness: the spec's own example, through the amended theorem. -/
theorem c7_embedded_id_witness :
    extract_embedded_id ("MARK E FRASER (12476390)") = (("MARK E FRASER"), ("12476390")) :=
  (c7_embedded_id.1 ("MARK E FRASER (12476390)") 14 (by decide) (by decide)
    (by decide)).trans (by decide)

/-! ## C8 — location normalization -/

/-- C8 (corrected claim, counterexample): the source pattern uses `\w\w`,
not two letters. `"CITY, 89 TX"` has no `"<text>, <2-letter-code>"` prefix —
the claim-side function leaves it unchanged — but the code truncates it
after the digit pair "89". -/
theorem c8_counterexample :
    fix_location ("CITY, 89 TX") = ("CITY, 89") ∧
    fixLocationLetters ("CITY, 89 TX") = ("CITY, 89 TX") ∧
    fix_location ("CITY, 89 TX") ≠ fixLocationLetters ("CITY, 89 TX") := by
  decide

/-- C8 (amended): after whitespace collapse and edge trim, the result is the
longest prefix `"<text>, <cc>"` where `cc` is two word characters (letters,
digits or underscore) followed by a word boundary; when no such prefix
exists the collapsed text is returned unchanged. -/
theorem c8_fix_location :
    (∀ (raw : String) (i len : Nat), i < (normLoc raw).length →
      locMatchAt (normLoc raw) i = some len →
      (∀ j, j < (normLoc raw).length → i < j → locMatchAt (normLoc raw) j = none) →
      fix_location raw = ⟨(normLoc raw).take len⟩) ∧
    (∀ raw : String, (∀ j, j < (normLoc raw).length → locMatchAt (normLoc raw) j = none) →
      fix_location raw = ⟨normLoc raw⟩) := by
  constructor
  · intro raw i len hi hv hnone
    have h : lastHit (locMatchAt (normLoc raw)) (normLoc raw).length = some len :=
      lastHit_eq_some _ _ i len hi hv hnone
    simp [fix_location, h]
  · intro raw hnone
    have h : lastHit (locMatchAt (normLoc raw)) (normLoc raw).length = none :=
      lastHit_eq_none _ _ hnone
    simp [fix_location, h]

/-- C8 witness: the spec's own example, through the amended theorem. -/
theorem c8_fix_location_witness :
    fix_location ("LAS VEGAS, NV  89103") = ("LAS VEGAS, NV") :=
  (c8_fix_location.1 ("LAS VEGAS, NV  89103") 9 13 (by decide) (by decide)
    (by decide)).trans (by decide)

/-! ## C10 — rating resolution frame -/

/-- C10 (confirmed): the player-page ratings overwrite only the regular
rating pair and only when non-empty; every other field of the assembled
event row is untouched by the resolution step. -/
theorem c10_rating_resolution (pid : String) (ev : EventSummary)
    (summary : List (String × String)) (my_pre my_post : String) :
    (resolveRatings (assembleRow pid ev summary) my_pre my_post).reg_before
        = (if my_pre = "" then ev.reg_before else my_pre) ∧
    (resolveRatings (assembleRow pid ev summary) my_pre my_post).reg_after
        = (if my_post = "" then ev.reg_after else my_post) ∧
    (resolveRatings (assembleRow pid ev summary) my_pre my_post).quick_before
        = ev.quick_before ∧
    (resolveRatings (assembleRow pid ev summary) my_pre my_post).quick_after
        = ev.quick_after ∧
    (resolveRatings (assembleRow pid ev summary) my_pre my_post).blitz_before
        = ev.blitz_before ∧
    (resolveRatings (assembleRow pid ev summary) my_pre my_post).blitz_after
        = ev.blitz_after ∧
    (resolveRatings (assembleRow pid ev summary) my_pre my_post).player_id = pid ∧
    (resolveRatings (assembleRow pid ev summary) my_pre my_post).end_date
        = ev.end_date ∧
    (resolveRatings (assembleRow pid ev summary) my_pre my_post).event_id
        = ev.event_id ∧
    (resolveRatings (assembleRow pid ev summary) my_pre my_post).event_name
        = ev.event_name ∧
    (resolveRatings (assembleRow pid ev summary) my_pre my_post).location
        = dictGet summary ("location") ∧
    (resolveRatings (assembleRow pid ev summary) my_pre my_post).event_dates
        = dictGet summary ("event date(s)") ∧
    (resolveRatings (assembleRow pid ev summary) my_pre my_post).chief_td
        = dictGet summary ("chief td") := by
  by_cases h1 : my_pre = "" <;> by_cases h2 : my_post = "" <;>
    simp [resolveRatings, assembleRow, h1, h2]

/-! ## C4 — the shape gate -/

theorem length_eq_six {α : Type} {l : List α} (h : l.length = 6) :
    ∃ a b c d e f, l = [a, b, c, d, e, f] := by
  rcases l with _ | ⟨a, l⟩
  · simp at h
  rcases l with _ | ⟨b, l⟩
  · simp at h
  rcases l with _ | ⟨c, l⟩
  · simp at h
  rcases l with _ | ⟨d, l⟩
  · simp at h
  rcases l with _ | ⟨e, l⟩
  · simp at h
  rcases l with _ | ⟨f, l⟩
  · simp at h
  rcases l with _ | ⟨g, l⟩
  · exact ⟨a, b, c, d, e, f, rfl⟩
  · simp at h

/-- C4 (confirmed): a row contributes a game record exactly when, after
filler suppression, exactly 6 text columns remain and column 0 matches the
result-code pattern; and concretely a 7-column row contributes nothing. -/
theorem c4_shape_gate :
    (∀ tr : Node, (rowToGame tr).isSome = true ↔
      ((suppressedCols tr).length = 6 ∧
        matchResultCode ((suppressedCols tr).headD "") = true)) ∧
    rowToGame exRow7 = none := by
  refine ⟨?_, by decide⟩
  intro tr
  have hc : suppressedCols tr
      = (((childrenOf tr).filter (isTag ("td"))).filter
          (fun td => !isFillerTd td)).map cellText := rfl
  rw [hc]
  simp only [rowToGame]
  split
  · rename_i he
    rw [List.isEmpty_iff] at he
    simp [he]
  · rename_i he
    split
    · rename_i c0 c1 c2 c3 c4 c5 hcols
      rw [hcols]
      split
      · rename_i hm
        simp [hm]
      · rename_i hm
        simp only [Bool.not_eq_true] at hm
        simp [hm]
    · rename_i hne
      constructor
      · intro hf; simp at hf
      · rintro ⟨h6, -⟩
        obtain ⟨a, b, c, d, e, f, hl⟩ := length_eq_six h6
        exact absurd hl (hne a b c d e f)

/-! ## C1 — the shape of the stored result field -/

/-- Letters of the result-code class are not whitespace. -/
theorem wldh_not_ws {c : Char} (h : wldhChar c = true) : isPyWS c = false := by
  simp only [wldhChar, Bool.or_eq_true, decide_eq_true_eq] at h
  rcases h with (((((((h | h) | h) | h) | h) | h) | h) | h) <;> subst h <;> decide

/-- Every game produced by a row carries `firstToken` of a column that
passed the result-code gate. -/
theorem rowToGame_some_result {tr : Node} {g : Game} (h : rowToGame tr = some g) :
    ∃ s : String, matchResultCode s = true ∧ g.result = firstToken s := by
  simp only [rowToGame] at h
  split at h
  · simp at h
  · split at h
    · rename_i c0 c1 c2 c3 c4 c5 hcols
      split at h
      · rename_i hm
        cases h
        exact ⟨c0, hm, rfl⟩
      · simp at h
    · simp at h

/-- A string passing the result-code gate has a first token made of one
class letter followed only by digits. -/
theorem token_shape {s : String} (h : matchResultCode s = true) :
    ∃ (c : Char) (rest : List Char), (firstToken s).data = c :: rest ∧
      wldhChar c = true ∧ ∀ x ∈ rest, x.isDigit = true := by
  unfold matchResultCode at h
  cases hs : s.data with
  | nil => rw [hs] at h; simp at h
  | cons c rest =>
    rw [hs] at h
    simp only [Bool.and_eq_true] at h
    obtain ⟨hc, hd⟩ := h
    refine ⟨c, rest.takeWhile (fun x => !isPyWS x), ?_, hc, ?_⟩
    · unfold firstToken
      rw [hs]
      simp [List.dropWhile_cons, wldh_not_ws hc, List.takeWhile_cons]
    · intro x hx
      cases rest with
      | nil => simp at hx
      | cons y t =>
        by_cases hy : isPyWS y = true
        · rw [List.takeWhile_cons] at hx
          simp [hy] at hx
        · simp only [Bool.not_eq_true] at hy
          rw [List.dropWhile_cons, hy] at hd
          simp only [Bool.false_eq_true, if_false] at hd
          have hmem : x ∈ y :: t :=
            (( List.takeWhile_prefix _).sublist).mem hx
          exact List.all_eq_true.mp hd x hmem

/-- C1 (corrected claim, counterexample): a matching row whose column 0 is
"W1" stores result "W1" (letter and digits, no space split), and a
lower-case "w 1" stores "w" — neither is one of the four case-normalized
single-letter codes. -/
theorem c1_counterexample :
    (parse_games_in_table exTableW1).map (fun g => g.result) = [("W1"), ("w")] ∧
    (("W1") ∉ [("W"), ("L"), ("D"), ("H")]) ∧
    (("w") ∉ [("W"), ("L"), ("D"), ("H")]) := by
  decide

/-- C1 (amended): the stored result is the first whitespace-delimited token
of column 0 verbatim: one letter of {W,L,D,H} in either case, followed by
the digits of column 0 exactly when no whitespace separates them; it is not
case-normalized and not always a single letter. -/
theorem c1_result_shape : ∀ (t : Node) (g : Game), g ∈ parse_games_in_table t →
    ∃ (c : Char) (rest : List Char), g.result.data = c :: rest ∧
      wldhChar c = true ∧ ∀ x ∈ rest, x.isDigit = true := by
  intro t g hg
  unfold parse_games_in_table at hg
  obtain ⟨tr, _, hrow⟩ := List.mem_filterMap.mp hg
  obtain ⟨s, hm, hres⟩ := rowToGame_some_result hrow
  rw [hres]
  exact token_shape hm

/-- C1 witness: the amended theorem applied to the concrete two-row table. -/
theorem c1_result_shape_witness :
    ∃ (c : Char) (rest : List Char), gW1.result.data = c :: rest ∧
      wldhChar c = true ∧ ∀ x ∈ rest, x.isDigit = true :=
  c1_result_shape exTableW1 gW1 (by decide)

/-! ## C2 — the two-pass fallback -/

mutual

theorem desc_trans : ∀ (n m : Node), m ∈ descendants n →
    descendants m ⊆ descendants n
  | .text _, m, h => by simp [descendants, descList] at h
  | .elem t a cs, m, h => by
    simp only [descendants] at h ⊢
    exact descList_trans cs m h

theorem descList_trans : ∀ (cs : List Node) (m : Node), m ∈ descList cs →
    descendants m ⊆ descList cs
  | [], m, h => by simp [descList] at h
  | c :: cs, m, h => by
    simp only [descList] at h ⊢
    rcases List.mem_cons.mp h with rfl | h2
    · intro x hx
      exact List.mem_cons_of_mem _ (List.mem_append_left _ hx)
    · rcases List.mem_append.mp h2 with h3 | h3
      · intro x hx
        exact List.mem_cons_of_mem _ (List.mem_append_left _ (desc_trans c m h3 hx))
      · intro x hx
        exact List.mem_cons_of_mem _ (List.mem_append_right _ (descList_trans cs m h3 hx))

end

/-- Nodes found below a descendant are found below the ancestor. -/
theorem findAll_sub {p q : Node → Bool} {outer st : Node}
    (h : st ∈ findAll p outer) : findAll q st ⊆ findAll q outer := by
  intro x hx
  unfold findAll at h hx ⊢
  obtain ⟨hst, _⟩ := List.mem_filter.mp h
  obtain ⟨hxd, hxq⟩ := List.mem_filter.mp hx
  exact List.mem_filter.mpr ⟨desc_trans outer st hst hxd, hxq⟩

/-- When the outer pass finds nothing, no nested table can yield a record
either: pass 1 already iterates over every descendant row. -/
theorem games_empty_nested {gt st : Node}
    (h1 : parse_games_in_table gt = [])
    (h2 : st ∈ findAll (isTag ("table")) gt) :
    parse_games_in_table st = [] := by
  unfold parse_games_in_table at h1 ⊢
  rw [List.filterMap_eq_nil_iff] at h1 ⊢
  intro tr htr
  exact h1 tr (findAll_sub h2 htr)

/-- C2 (confirmed): when pass 1 over the outer Games table yields zero
records, the extractor is re-run over every nested table and the results
concatenated; with some nested table containing N matching rows, the
combined output has exactly N records and no duplicates. (In this code
pass 1 already scans rows of nested tables, so N is forced to 0 whenever
pass 1 is empty; the concatenation is then duplicate-free trivially.) -/
theorem c2_two_pass (gt st : Node) (N : Nat)
    (h1 : parse_games_in_table gt = [])
    (h2 : st ∈ findAll (isTag ("table")) gt)
    (h3 : (parse_games_in_table st).length = N) :
    twoPassGames gt = (findAll (isTag ("table")) gt).flatMap parse_games_in_table ∧
    (twoPassGames gt).length = N ∧ (twoPassGames gt).Nodup := by
  have hp2 : (findAll (isTag ("table")) gt).flatMap parse_games_in_table = [] := by
    rw [List.flatMap_eq_nil_iff]
    intro t ht
    exact games_empty_nested h1 ht
  have htw : twoPassGames gt = [] := by
    simp only [twoPassGames, h1, List.isEmpty_nil, if_true]
    exact hp2
  have hN : N = 0 := by rw [← h3, games_empty_nested h1 h2]; rfl
  rw [htw, hN]
  exact ⟨hp2.symm, rfl, List.nodup_nil⟩

/-- C2 witness: an outer table with an empty nested table. -/
theorem c2_two_pass_witness :
    twoPassGames gtNested
      = (findAll (isTag ("table")) gtNested).flatMap parse_games_in_table ∧
    (twoPassGames gtNested).length = 0 ∧ (twoPassGames gtNested).Nodup :=
  c2_two_pass gtNested stNested 0 (by decide)
    (by
      have h : findAll (isTag ("table")) gtNested = [stNested] := rfl
      rw [h]
      exact List.mem_singleton.mpr rfl)
    (by decide)

/-! ## C6 — the player rating scan -/

theorem findSome?_flatMap {α β γ : Type} (l : List α) (g : α → List β)
    (f : β → Option γ) :
    (l.flatMap g).findSome? f = l.findSome? (fun x => (g x).findSome? f) := by
  induction l with
  | nil => rfl
  | cons a l ih =>
    rw [List.flatMap_cons, List.findSome?_append, List.findSome?_cons]
    cases h : (g a).findSome? f with
    | some b => simp [Option.or, h]
    | none => simp [Option.or, h, ih]

/-- C6 (corrected claim, counterexample): the rating scan accepts only the
width-750 variant of the main-table signature. A rating row sitting in a
width-800 signature table is found by the claim-side two-variant scan but
missed by the code, which reports two empty strings; the identical content
under width 750 is found. -/
theorem c6_counterexample :
    parse_player_rating_table doc800 = ("", "") ∧
    ratingScanTwoWidths doc800 = (("1294"), ("1451")) ∧
    parse_player_rating_table doc800 ≠ ratingScanTwoWidths doc800 ∧
    parse_player_rating_table doc750 = (("1294"), ("1451")) := by
  decide

/-- C6 (amended): the scan covers exactly the width-750 signature tables;
within them the first qualifying row — first cell reading "rating" after
filler suppression, second cell matching the rating pattern — wins, in row
order inside a table and then table order; with no qualifying row anywhere
both ratings are empty strings. -/
theorem c6_rating_scan : ∀ soup : Node,
    (parse_player_rating_table soup
      = ((ratingCandidateRows soup).findSome? rowRating).getD ("", "")) ∧
    ((∀ r ∈ ratingCandidateRows soup, rowRating r = none) →
      parse_player_rating_table soup = ("", "")) := by
  intro soup
  have hflat : parse_player_rating_table soup
      = ((ratingCandidateRows soup).findSome? rowRating).getD ("", "") := by
    unfold parse_player_rating_table ratingCandidateRows
    rw [findSome?_flatMap]
  refine ⟨hflat, fun hnone => ?_⟩
  rw [hflat, List.findSome?_eq_none_iff.mpr hnone]
  rfl

/-- C6 witness: on the width-800 document no candidate row exists, so the
amended theorem yields the empty pair. -/
theorem c6_rating_scan_witness : parse_player_rating_table doc800 = ("", "") :=
  (c6_rating_scan doc800).2 (by
    intro r hr
    have h : ratingCandidateRows doc800 = [] := rfl
    rw [h] at hr
    exact absurd hr (List.not_mem_nil r))

/-! ## C5 — the fetch retry contract -/

/-- The retry loop, characterized for any suffix of the attempt range. -/
theorem fetchGo_spec (net : Nat → Except NetErr String) (maxR : Nat) :
    ∀ rem i, 1 ≤ rem → i + rem = maxR + 1 → 1 ≤ i →
    ((∀ e, (fetchGo net maxR rem i).2 = .error e ↔
        ((∀ j, i ≤ j → j ≤ maxR → ∃ e', net j = .error e') ∧
          net maxR = .error e)) ∧
     (∀ b, (fetchGo net maxR rem i).2 = .ok b →
        ∃ j, i ≤ j ∧ j ≤ maxR ∧ net j = .ok b ∧
          ∀ j', i ≤ j' → j' < j → ∃ e', net j' = .error e') ∧
     (∃ k, 1 ≤ k ∧ i + k - 1 ≤ maxR ∧ (fetchGo net maxR rem i).1 = attemptTrace i k)) := by
  intro rem
  induction rem with
  | zero => intro i h1; omega
  | succ rem ih =>
    intro i _ hinv hi
    have himax : i ≤ maxR := by omega
    simp only [fetchGo]
    cases hnet : net i with
    | ok body =>
      refine ⟨?_, ?_, 1, by omega, by omega, ?_⟩
      · intro e
        constructor
        · intro hf; simp at hf
        · rintro ⟨hall, -⟩
          obtain ⟨e', he'⟩ := hall i (le_refl i) himax
          rw [hnet] at he'
          cases he'
      · intro b hb
        simp only [Except.ok.injEq] at hb
        exact ⟨i, le_refl i, himax, by rw [hnet, hb], fun j' h1 h2 => by omega⟩
      · simp [attemptTrace, List.range', List.flatMap_cons]
    | error e0 =>
      by_cases hlast : i = maxR
      · simp only [hlast, if_true]
        refine ⟨?_, ?_, 1, by omega, by omega, ?_⟩
        · intro e
          constructor
          · intro hf
            simp only [Except.error.injEq] at hf
            subst hf
            refine ⟨fun j h1 h2 => ⟨e0, ?_⟩, by rw [← hlast, hnet]⟩
            have : j = maxR := by omega
            rw [this, ← hlast, hnet]
          · rintro ⟨-, hmax⟩
            rw [← hlast, hnet] at hmax
            simp only [Except.error.injEq] at hmax
            rw [hmax]
        · intro b hb; simp at hb
        · simp [attemptTrace, List.range', List.flatMap_cons]
      · simp only [hlast, if_false]
        have hrec := ih (i + 1) (by omega) (by omega) (by omega)
        obtain ⟨ih1, ih2, k, hk1, hk2, hk3⟩ := hrec
        refine ⟨?_, ?_, k + 1, by omega, by omega, ?_⟩
        · intro e
          rw [ih1 e]
          constructor
          · rintro ⟨hall, hmax⟩
            refine ⟨fun j h1 h2 => ?_, hmax⟩
            rcases Nat.eq_or_lt_of_le h1 with rfl | hlt
            · exact ⟨e0, hnet⟩
            · exact hall j hlt h2
          · rintro ⟨hall, hmax⟩
            exact ⟨fun j h1 h2 => hall j (by omega) h2, hmax⟩
        · intro b hb
          obtain ⟨j, hj1, hj2, hj3, hj4⟩ := ih2 b hb
          refine ⟨j, by omega, hj2, hj3, fun j' h1 h2 => ?_⟩
          rcases Nat.eq_or_lt_of_le h1 with rfl | hlt
          · exact ⟨e0, hnet⟩
          · exact hj4 j' hlt h2
        · rw [hk3]
          show FetchAct.sleep :: FetchAct.attempt i :: attemptTrace (i + 1) k
              = attemptTrace i (k + 1)
          rw [attemptTrace, attemptTrace, List.range'_succ, List.flatMap_cons]
          rfl

/-- C5 (confirmed): with at least one retry allowed, each attempt is
preceded by the fixed delay (including the first); a first success at
attempt `j` returns that body; and an error propagates if and only if every
one of the `max_retries` attempts failed, the propagated error being the
final one. -/
theorem c5_fetch_contract (net : Nat → Except NetErr String) (max_retries : Nat)
    (h : 1 ≤ max_retries) :
    (∀ e, (fetch_html net max_retries).2 = .error e ↔
       ((∀ j, 1 ≤ j → j ≤ max_retries → ∃ e', net j = .error e') ∧
         net max_retries = .error e)) ∧
    (∀ b, (fetch_html net max_retries).2 = .ok b →
       ∃ j, 1 ≤ j ∧ j ≤ max_retries ∧ net j = .ok b ∧
         ∀ j', 1 ≤ j' → j' < j → ∃ e', net j' = .error e') ∧
    (∃ k, 1 ≤ k ∧ k ≤ max_retries ∧ (fetch_html net max_retries).1 = attemptTrace 1 k) := by
  have hs := fetchGo_spec net max_retries max_retries 1 h (by omega) (le_refl 1)
  obtain ⟨h1, h2, k, hk1, hk2, hk3⟩ := hs
  exact ⟨h1, h2, k, hk1, by omega, hk3⟩

/-- C5 witness: a timeout on the first attempt, success on the second, with
the retry limit 2. -/
theorem c5_fetch_contract_witness :
    (∀ e, (fetch_html netRetryOnce 2).2 = .error e ↔
       ((∀ j, 1 ≤ j → j ≤ 2 → ∃ e', netRetryOnce j = .error e') ∧
         netRetryOnce 2 = .error e)) ∧
    (∀ b, (fetch_html netRetryOnce 2).2 = .ok b →
       ∃ j, 1 ≤ j ∧ j ≤ 2 ∧ netRetryOnce j = .ok b ∧
         ∀ j', 1 ≤ j' → j' < j → ∃ e', netRetryOnce j' = .error e') ∧
    (∃ k, 1 ≤ k ∧ k ≤ 2 ∧ (fetch_html netRetryOnce 2).1 = attemptTrace 1 k) :=
  c5_fetch_contract netRetryOnce 2 (by omega)

/-! ## C3 and C9 — the visited set -/

theorem finishPlayer_fst (env : Env) (v : List String) (log : List FetchEv)
    (s : List (String × String)) (ul : Option String) :
    (finishPlayer env v log s ul).1 = v := by
  unfold finishPlayer
  split
  · rfl
  · split <;> rfl

theorem finishPlayer_cross (env : Env) (v : List String) (log : List FetchEv)
    (s : List (String × String)) (ul : Option String) :
    crossLinks (finishPlayer env v log s ul).2.1 = crossLinks log := by
  unfold finishPlayer
  split
  · rfl
  · split <;> simp [crossLinks, List.filterMap_append]

/-- One `parse_crosstable` call only grows the visited set, logs
cross-reference fetches without duplication, and logs only links that were
unvisited on entry and are visited on exit. -/
theorem crosstable_step (env : Env) (pid x : String) (v : List String) :
    v ⊆ (parse_crosstable env pid x v).1 ∧
    (crossLinks (parse_crosstable env pid x v).2.1).Nodup ∧
    (∀ a ∈ crossLinks (parse_crosstable env pid x v).2.1,
      a ∉ v ∧ a ∈ (parse_crosstable env pid x v).1) := by
  unfold parse_crosstable
  split
  · -- already visited: no fetch at all
    exact ⟨fun a ha => ha, List.nodup_nil, fun a ha => absurd ha (List.not_mem_nil a)⟩
  · rename_i hx
    dsimp only
    split
    · -- the crosstable fetch raises
      refine ⟨List.subset_cons_self x v, by simp [crossLinks], ?_⟩
      intro a ha
      have ha' : a = x := by simpa [crossLinks] using ha
      subst ha'
      exact ⟨hx, List.mem_cons_self a v⟩
    · rename_i soup heq
      split
      · -- direct user link found
        rw [finishPlayer_fst, finishPlayer_cross]
        refine ⟨List.subset_cons_self x v, by simp [crossLinks], ?_⟩
        intro a ha
        have ha' : a = x := by simpa [crossLinks] using ha
        subst ha'
        exact ⟨hx, List.mem_cons_self a v⟩
      · -- all-sections fallback
        split
        · rename_i hzero
          obtain ⟨hz1, hz2⟩ := hzero
          have hne : x ≠ find_all_sections_link soup x := by
            intro h
            exact hz2 (h ▸ List.mem_cons_self x v)
          split
          · -- the all-sections fetch raises
            refine ⟨?_, ?_, ?_⟩
            · exact fun a ha => List.mem_cons_of_mem _ (List.mem_cons_of_mem _ ha)
            · simp [crossLinks, hne]
            · intro a ha
              have hor : a = x ∨ a = find_all_sections_link soup x := by
                simpa [crossLinks] using ha
              rcases hor with rfl | rfl
              · exact ⟨hx, List.mem_cons_of_mem _ (List.mem_cons_self a v)⟩
              · exact ⟨fun hav => hz2 (List.mem_cons_of_mem _ hav),
                  List.mem_cons_self _ _⟩
          · -- all-sections page parsed
            rw [finishPlayer_fst, finishPlayer_cross]
            refine ⟨?_, ?_, ?_⟩
            · exact fun a ha => List.mem_cons_of_mem _ (List.mem_cons_of_mem _ ha)
            · simp [crossLinks, hne]
            · intro a ha
              have hor : a = x ∨ a = find_all_sections_link soup x := by
                simpa [crossLinks] using ha
              rcases hor with rfl | rfl
              · exact ⟨hx, List.mem_cons_of_mem _ (List.mem_cons_self a v)⟩
              · exact ⟨fun hav => hz2 (List.mem_cons_of_mem _ hav),
                  List.mem_cons_self _ _⟩
        · -- fallback unavailable
          rw [finishPlayer_fst, finishPlayer_cross]
          refine ⟨List.subset_cons_self x v, by simp [crossLinks], ?_⟩
          intro a ha
          have ha' : a = x := by simpa [crossLinks] using ha
          subst ha'
          exact ⟨hx, List.mem_cons_self a v⟩

/-- The traversal loop preserves the invariant: cross-reference fetches are
pairwise distinct and all recorded in the visited set. -/
theorem runEvents_inv (env : Env) (pid : String) :
    ∀ (xs : List String) (v : List String) (log : List FetchEv),
      (crossLinks log).Nodup → (∀ a ∈ crossLinks log, a ∈ v) →
      ((crossLinks (runEvents env pid xs v log).2.1).Nodup ∧
       ∀ a ∈ crossLinks (runEvents env pid xs v log).2.1,
         a ∈ (runEvents env pid xs v log).1) := by
  intro xs
  induction xs with
  | nil => intro v log h1 h2; exact ⟨h1, h2⟩
  | cons x xs ih =>
    intro v log h1 h2
    simp only [runEvents]
    split
    · exact ih v log h1 h2
    · obtain ⟨hsub, hnodup, hmem⟩ := crosstable_step env pid x v
      split
      · rename_i v' l' e heq
        rw [heq] at hsub hnodup hmem
        constructor
        · rw [crossLinks, List.filterMap_append]
          refine List.nodup_append.mpr ⟨h1, hnodup, ?_⟩
          intro a ha1 ha2
          exact (hmem a ha2).1 (h2 a ha1)
        · intro a ha
          rw [crossLinks, List.filterMap_append] at ha
          rcases List.mem_append.mp ha with ha1 | ha2
          · exact hsub (h2 a ha1)
          · exact (hmem a ha2).2
      · rename_i v' l' d heq
        rw [heq] at hsub hnodup hmem
        apply ih v' (log ++ l')
        · rw [crossLinks, List.filterMap_append]
          refine List.nodup_append.mpr ⟨h1, hnodup, ?_⟩
          intro a ha1 ha2
          exact (hmem a ha2).1 (h2 a ha1)
        · intro a ha
          rw [crossLinks, List.filterMap_append] at ha
          rcases List.mem_append.mp ha with ha1 | ha2
          · exact hsub (h2 a ha1)
          · exact (hmem a ha2).2

/-- C3 (confirmed): over any traversal of `main`, the cross-reference
fetches (direct links and derived `.0` variants) are pairwise distinct, and
every fetched cross-reference link ends up in the visited set — so a link in
the visited set is never fetched again by a later event. -/
theorem c3_visited_once : ∀ (env : Env) (pid : String) (xlinks : List String),
    (crossLinks (mainFetches env pid xlinks).2.1).Nodup ∧
    ∀ a ∈ crossLinks (mainFetches env pid xlinks).2.1,
      a ∈ (mainFetches env pid xlinks).1 := by
  intro env pid xlinks
  exact runEvents_inv env pid xlinks [] []
    (by simp [crossLinks]) (by simp [crossLinks])

/-- C9 (confirmed): cross-reference links enter the visited set strictly
before their fetch is attempted, on both fetching paths of
`parse_crosstable`. When the fetch of the direct link raises, the call
returns the error with that link recorded; when the direct page parses but
carries no user link and the fetch of the derived `.0` all-sections variant
raises, both the direct link and the variant are recorded in the returned
visited set. In either case the insertion is not rolled back, any later
call on a link already in the visited set returns without fetching, and the
surrounding run aborts at the failing event, performing no further
fetches. -/
theorem c9_insert_before_fetch (env : Env) (pid x : String) (v : List String)
    (h1 : x ∉ v) (h2 : x ≠ "") :
    (env.fetch x = none →
      parse_crosstable env pid x v = (x :: v, [⟨.xref, x⟩], .error ()) ∧
      ∀ (xs : List String) (log : List FetchEv),
        runEvents env pid (x :: xs) v log = (x :: v, log ++ [⟨.xref, x⟩], true)) ∧
    (∀ soup : Node, env.fetch x = some soup →
      findUserlink soup pid = none →
      find_all_sections_link soup x ≠ "" →
      find_all_sections_link soup x ∉ x :: v →
      env.fetch (find_all_sections_link soup x) = none →
      parse_crosstable env pid x v
        = (find_all_sections_link soup x :: x :: v,
           [⟨.xref, x⟩, ⟨.allSec, find_all_sections_link soup x⟩], .error ()) ∧
      ∀ (xs : List String) (log : List FetchEv),
        runEvents env pid (x :: xs) v log
          = (find_all_sections_link soup x :: x :: v,
             log ++ [⟨.xref, x⟩, ⟨.allSec, find_all_sections_link soup x⟩], true)) ∧
    (∀ (l : String) (v2 : List String), l ∈ v2 →
      parse_crosstable env pid l v2 = (v2, [], .ok emptyCross)) := by
  refine ⟨fun hf => ?_, fun soup hs hu hz1 hz2 hzf => ?_,
    fun l v2 hv2 => by simp [parse_crosstable, hv2]⟩
  · have hstep : parse_crosstable env pid x v = (x :: v, [⟨.xref, x⟩], .error ()) := by
      simp [parse_crosstable, h1, hf]
    exact ⟨hstep, fun xs log => by simp [runEvents, h2, hstep]⟩
  · have hstep : parse_crosstable env pid x v
        = (find_all_sections_link soup x :: x :: v,
           [⟨.xref, x⟩, ⟨.allSec, find_all_sections_link soup x⟩], .error ()) := by
      simp [parse_crosstable, h1, hs, hu, hz1, hz2, hzf]
    exact ⟨hstep, fun xs log => by simp [runEvents, h2, hstep]⟩

/-- C9 witness: the direct path on a network where every fetch raises, and
the all-sections path on a network where only the direct link resolves (to
a page without a user link), so the derived `.0` variant link is inserted
and its fetch raises. -/
theorem c9_insert_before_fetch_witness :
    (parse_crosstable envFail ("p") ("L1") []
       = ([("L1")], [⟨FKind.xref, ("L1")⟩], .error ()) ∧
     ∀ (xs : List String) (log : List FetchEv),
       runEvents envFail ("p") (("L1") :: xs) [] log
         = ([("L1")], log ++ [⟨FKind.xref, ("L1")⟩], true)) ∧
    (parse_crosstable envVariant ("p") ("XtblMain.php?11-22") []
       = ([("XtblMain.php?11.0-22"), ("XtblMain.php?11-22")],
          [⟨FKind.xref, ("XtblMain.php?11-22")⟩,
           ⟨FKind.allSec, ("XtblMain.php?11.0-22")⟩], .error ()) ∧
     ∀ (xs : List String) (log : List FetchEv),
       runEvents envVariant ("p") (("XtblMain.php?11-22") :: xs) [] log
         = ([("XtblMain.php?11.0-22"), ("XtblMain.php?11-22")],
            log ++ [⟨FKind.xref, ("XtblMain.php?11-22")⟩,
              ⟨FKind.allSec, ("XtblMain.php?11.0-22")⟩], true)) := by
  constructor
  · exact (c9_insert_before_fetch envFail ("p") ("L1") []
      (List.not_mem_nil _) (by decide)).1 rfl
  · have hz : find_all_sections_link (Node.elem ("html") [] []) ("XtblMain.php?11-22")
        = ("XtblMain.php?11.0-22") := by decide
    have h := (c9_insert_before_fetch envVariant ("p") ("XtblMain.php?11-22") []
      (List.not_mem_nil _) (by decide)).2.1 (Node.elem ("html") [] []) rfl rfl
      (by decide) (by decide) (by rw [hz]; rfl)
    rw [hz] at h
    exact h

end Uscf
